import Mathlib

/-!
Shallow embedding of the `dumper` repository's core library (`src/lib.ts`).

The pipeline is `generateRepoDocs`: parse a repository URL into owner/name,
clone the repository into a fresh temporary directory, read the latest
commit SHA and date, walk the clone's file tree selecting files by
include/exclude regular expressions (defaulting to lowercase ".md" suffix),
aggregate the selected files' contents behind per-file headers, and remove
the temporary directory on every path out.

Modelling conventions:
* Strings are Lean `String`s, but every operation is implemented
  structurally over `String.data` (a `List Char`) so that all definitions
  compute in the kernel.  Each such operation documents the JavaScript
  string operation it models.
* The filesystem tree visible to the selector is an explicit inductive
  value (`Entry`), with file contents supplied by a read oracle
  `String → Except String String` (a read may fail, as `fs.readFile` may).
* External effects (URL parsing, `git clone`, `git rev-parse`, `git log`,
  `fs.readdir`, `fs.rm`) are supplied by an environment `Env` of
  `Except`-valued results; the lifecycle function threads them exactly in
  the order the source does and records clone/cleanup invocations in an
  event trace.
* Compiled regular expressions are modelled as predicates
  `String → Bool`; the pattern compiler `regexTest` models
  `new RegExp(pat).test` for metacharacter-free patterns.
-/

deriving instance DecidableEq for Except

/-- Information about a repository (interface `RepoInfo` in `lib.ts`). -/
structure RepoInfo where
  owner : String
  repo : String
deriving DecidableEq, Repr

/-- Metadata about a repository, including commit SHA and date
(interface `RepoMetadata` in `lib.ts`). -/
structure RepoMetadata extends RepoInfo where
  sha : String
  date : String
deriving DecidableEq, Repr

/-- Return type of `generateRepoDocs` (interface `GenerateRepoDocsReturn`). -/
structure GenerateRepoDocsReturn where
  output : String
  metadata : RepoMetadata
deriving DecidableEq, Repr

/-- Model of the TypeScript optional field type `string | string[]`
(`undefined` when the option is omitted), as used by the `include` and
`exclude` fields of `GenerateRepoDocsOptions`. -/
inductive StrOrList where
  | omitted
  | str (s : String)
  | arr (l : List String)
deriving DecidableEq, Repr

/-- Options accepted by `generateRepoDocs` (interface
`GenerateRepoDocsOptions`; the TypeScript field names `include`/`exclude`
are Lean keywords-adjacent, so the fields are named `includeOpt` and
`excludeOpt`). -/
structure GenerateRepoDocsOptions where
  includeOpt : StrOrList := .omitted
  branch : Option String := none
  excludeOpt : StrOrList := .omitted

/-- Mirrors the option normalization at the top of `generateRepoDocs`:
`Array.isArray(x) ? x : x ? [x] : []`.  A JavaScript empty string is
falsy, so a single empty-string pattern normalizes to the empty list. -/
def normalizePatterns : StrOrList → List String
  | .omitted => []
  | .str s => if s = "" then [] else [s]
  | .arr l => l

/-- Does `pat` occur as a contiguous sublist of the second argument?
Structural model of literal substring search. -/
def occursIn (pat : List Char) : List Char → Bool
  | [] => pat.isEmpty
  | c :: rest => pat.isPrefixOf (c :: rest) || occursIn pat rest

/-- Model of JavaScript `new RegExp(pat).test s` for pattern strings free
of regular-expression metacharacters: such a pattern matches exactly the
strings containing it as a literal substring, and the empty pattern
matches every string. -/
def regexTest (pat : String) (s : String) : Bool :=
  occursIn pat.data s.data

/-- Model of JavaScript `String.prototype.toLowerCase` (character-wise
lowercasing, which agrees with the JavaScript behavior on ASCII paths). -/
def jsToLower (s : String) : String :=
  ⟨s.data.map Char.toLower⟩

/-- Model of JavaScript `String.prototype.endsWith`. -/
def jsEndsWith (s pat : String) : Bool :=
  List.isSuffixOf pat.data s.data

/-- Model of JavaScript `String.prototype.trim`: remove leading and
trailing whitespace characters. -/
def jsTrim (s : String) : String :=
  ⟨((s.data.dropWhile Char.isWhitespace).reverse.dropWhile Char.isWhitespace).reverse⟩

/-- Mirrors `pathname.replace(/^\/+/, "")` in `getRepoInfo`: drop every
leading slash. -/
def stripLeadingSlashes (l : List Char) : List Char :=
  l.dropWhile (· == '/')

/-- Helper for `stripGitSlashSuffix`, operating on the reversed character
list: remove a leading reversed ".git/", else a leading reversed ".git",
else a leading reversed "/". -/
def stripTailRev (l : List Char) : List Char :=
  if ['/', 't', 'i', 'g', '.'].isPrefixOf l then l.drop 5
  else if ['t', 'i', 'g', '.'].isPrefixOf l then l.drop 4
  else if ['/'].isPrefixOf l then l.drop 1
  else l

/-- Mirrors `cleaned.replace(/(\.git)?\/?$/, "")` in `getRepoInfo`: the
leftmost match of that anchored pattern removes a trailing ".git/" if
present, otherwise a trailing ".git", otherwise a trailing "/", otherwise
nothing. -/
def stripGitSlashSuffix (l : List Char) : List Char :=
  (stripTailRev l.reverse).reverse

/-- Model of JavaScript `String.prototype.split("/")`: `[""]` on the empty
string, and a trailing separator yields a trailing empty segment. -/
def splitOnSlash : List Char → List (List Char)
  | [] => [[]]
  | c :: rest =>
    if c = '/' then [] :: splitOnSlash rest
    else
      match splitOnSlash rest with
      | [] => [[c]]
      | s :: ss => (c :: s) :: ss

/-- Mirrors `const [owner, repo] = cleaned.split("/")` plus the
`!owner || !repo` check in `getRepoInfo`: split the cleaned pathname on
"/" and require the first two segments to be non-empty. -/
def parseOwnerRepo (cleaned : List Char) : Option (List Char × List Char) :=
  match splitOnSlash cleaned with
  | owner :: repo :: _ =>
    if owner.isEmpty || repo.isEmpty then none else some (owner, repo)
  | _ => none

/-- Mirrors `getRepoInfo` in `lib.ts`.  `urlPathname` is the result of the
host's WHATWG URL parser on `repoUrl`: `none` when `new URL(repoUrl)`
throws (modelled error "Invalid URL: …"), otherwise `some` of the URL's
pathname.  The pathname is cleaned of leading slashes and of one trailing
".git"/"/" suffix, then split into the owner and repository segments;
a missing or empty segment throws the malformed-URL error. -/
def getRepoInfo (repoUrl : String) (urlPathname : Option String) :
    Except String RepoInfo :=
  match urlPathname with
  | none => .error ("Invalid URL: " ++ repoUrl)
  | some pathname =>
    match parseOwnerRepo (stripGitSlashSuffix (stripLeadingSlashes pathname.data)) with
    | some (owner, repo) => .ok ⟨⟨owner⟩, ⟨repo⟩⟩
    | none => .error ("Could not parse owner/repo from URL: " ++ repoUrl)

mutual
/-- One directory entry as reported by `fs.readdir(dir, withFileTypes)`:
a regular file, a directory with its own listing, or an entry that is
neither (`entry.isFile()` and `entry.isDirectory()` both false — e.g. a
symbolic link). -/
inductive Entry where
  | file (name : String)
  | dir (name : String) (children : EntryList)
  | other (name : String)
/-- Listing of directory entries, mutual with `Entry` so that traversals
are structural recursions that compute in the kernel. -/
inductive EntryList where
  | nil
  | cons (e : Entry) (rest : EntryList)
end

/-- Builds an `EntryList` from a Lean list of entries. -/
def EntryList.ofList : List Entry → EntryList
  | [] => .nil
  | e :: r => .cons e (EntryList.ofList r)

/-- Model of Node's `path.join(dir, name)` for a non-empty `dir` and a
separator-free `name`, the only case the traversal exercises. -/
def pathJoin (dir name : String) : String :=
  dir ++ "/" ++ name

/-- The selection test applied to a regular file's full path inside
`findMarkdownFiles`' walk: (include regexes non-empty and some include
matches, or include regexes empty and the lowercased path ends in ".md"),
and no exclude regex matches. -/
def selected (includeRegexes excludeRegexes : List (String → Bool))
    (fullPath : String) : Bool :=
  ((includeRegexes.length > 0 && includeRegexes.any (fun rx => rx fullPath)) ||
      (includeRegexes.length == 0 && jsEndsWith (jsToLower fullPath) ".md")) &&
    !(excludeRegexes.any (fun ex => ex fullPath))

mutual
/-- One loop iteration of the recursive `walk` inside `findMarkdownFiles`:
recurse into a directory entry (so all of its descendants are emitted
before later siblings), push a regular file's full path when it passes the
selection test, and skip every other entry. -/
def walkEntry (includeRegexes excludeRegexes : List (String → Bool))
    (currentDir : String) : Entry → List String
  | Entry.file name =>
    if selected includeRegexes excludeRegexes (pathJoin currentDir name) then
      [pathJoin currentDir name]
    else []
  | Entry.dir name children =>
    walkList includeRegexes excludeRegexes (pathJoin currentDir name) children
  | Entry.other _ => []
/-- The recursive `walk` inside `findMarkdownFiles`, processing the listing
of `currentDir` in directory-listing order. -/
def walkList (includeRegexes excludeRegexes : List (String → Bool))
    (currentDir : String) : EntryList → List String
  | EntryList.nil => []
  | EntryList.cons e rest =>
    walkEntry includeRegexes excludeRegexes currentDir e ++
      walkList includeRegexes excludeRegexes currentDir rest
end

/-- Mirrors `findMarkdownFiles(dir, includeRegexes, excludeRegexes)`; the
directory tree rooted at `dir` is passed explicitly as the listing the
filesystem would report. -/
def findMarkdownFiles (dir : String) (tree : EntryList)
    (includeRegexes excludeRegexes : List (String → Bool)) : List String :=
  walkList includeRegexes excludeRegexes dir tree

mutual
/-- Specification-side description of the traversal at one entry: the full
paths of all regular-file entries below it in depth-first order, with no
filtering. -/
def dfsEntry (d : String) : Entry → List String
  | Entry.file name => [pathJoin d name]
  | Entry.dir name children => dfsList (pathJoin d name) children
  | Entry.other _ => []
/-- Specification-side description of the traversal: the full paths of all
regular-file entries in depth-first, directory-listing order, with no
filtering.  Used to state which files are "encountered" and in which
order. -/
def dfsList (d : String) : EntryList → List String
  | EntryList.nil => []
  | EntryList.cons e rest => dfsEntry d e ++ dfsList d rest
end

/-- Model of Node's `path.relative(base, p)` for the only case the
pipeline exercises: `p` lying strictly below `base`. -/
def relativePath (base p : String) : String :=
  if (base.data ++ ['/']).isPrefixOf p.data then
    ⟨p.data.drop (base.data.length + 1)⟩
  else p

/-- One iteration of the aggregation loop in `processFiles`: read the
file's content (a failing read rejects the whole aggregation, as the first
awaited rejection does in the source) and append
`"\n## " ++ relative path ++ "\n\n" ++ content ++ "\n"` to the accumulated
output. -/
def aggStep (baseDir : String) (read : String → Except String String)
    (acc filePath : String) : Except String String := do
  let content ← read filePath
  pure (acc ++ "\n## " ++ relativePath baseDir filePath ++ "\n\n" ++
    content ++ "\n")

/-- Mirrors `processFiles(files, baseDir, repoInfo)` in `lib.ts`, with the
filesystem's `fs.readFile` supplied as the oracle `read`.  Starting from
the top-level header, the loop appends one block per file in input order,
and the result is trimmed. -/
def processFiles (files : List String) (baseDir : String) (repoInfo : RepoInfo)
    (read : String → Except String String) : Except String String := do
  let combinedOutput ← files.foldlM (aggStep baseDir read)
    ("# Documentation for " ++ repoInfo.owner ++ "/" ++ repoInfo.repo ++ "\n")
  pure (jsTrim combinedOutput)

/-- Specification-side concatenation of a list of strings, in order. -/
def concatAll : List String → String
  | [] => ""
  | s :: rest => s ++ concatAll rest

/-- The top-level header line the aggregator emits for a repository. -/
def docHeader (repoInfo : RepoInfo) : String :=
  "# Documentation for " ++ repoInfo.owner ++ "/" ++ repoInfo.repo ++ "\n"

/-- The block the aggregator emits for one selected file, given the map
`content` from paths to file contents. -/
def fileBlock (baseDir : String) (content : String → String) (p : String) :
    String :=
  "\n## " ++ relativePath baseDir p ++ "\n\n" ++ content p ++ "\n"

/-- Mirrors `getRepoMetadata(tmpDir)`: the trimmed stdout of
`git rev-parse HEAD` and of `git log -1 --format=%cd HEAD`, each supplied
by the environment and each failing when the subprocess fails. -/
def getRepoMetadata (shaRes dateRes : Except String String) :
    Except String (String × String) := do
  let sha ← shaRes
  let date ← dateRes
  pure (jsTrim sha, jsTrim date)

/-- Externally observable events of one `generateRepoDocs` run, in
chronological order: an invocation of `git clone` (`cloneRepo`) and an
invocation of `fs.rm` on a directory (`cleanup`). -/
inductive Event where
  | cloneCall
  | cleanupCall (dir : String)
deriving DecidableEq, Repr

/-- Environment of one `generateRepoDocs` run: the outcomes the external
world would hand each effectful call.  `cleanupRes k` is the outcome of
the `k`-th `cleanup` invocation of the run. -/
structure Env where
  repoUrl : String
  urlPathname : Option String
  cloneRes : Except String String
  shaRes : Except String String
  dateRes : Except String String
  treeRes : Except String EntryList
  read : String → Except String String
  cleanupRes : Nat → Except String Unit

/-- The body of the `try` block in `generateRepoDocs`, after a successful
clone into `tmpDir`: read metadata, list and select files, aggregate.
Any stage's failure aborts the body with that stage's error. -/
def pipelineBody (env : Env) (tmpDir : String) (repoInfo : RepoInfo)
    (includeRegexes excludeRegexes : List (String → Bool)) :
    Except String GenerateRepoDocsReturn := do
  let md ← getRepoMetadata env.shaRes env.dateRes
  let tree ← env.treeRes
  let mdFiles := findMarkdownFiles tmpDir tree includeRegexes excludeRegexes
  let output ← processFiles mdFiles tmpDir repoInfo env.read
  pure { output := output,
         metadata := { owner := repoInfo.owner, repo := repoInfo.repo,
                       sha := md.1, date := md.2 } }

/-- Mirrors `generateRepoDocs(repoUrl, options)` in `lib.ts`, returning the
run's result together with its chronological event trace.  Control flow of
the source: normalize and compile patterns; `getRepoInfo` (throws before
anything is cloned); `cloneRepo`; then a `try` block running the pipeline
body followed by `cleanup` and the `return`, whose `catch` runs `cleanup`
and rethrows — so a `cleanup` failure inside the `try` reaches the `catch`,
which invokes `cleanup` a second time, and whichever error the `catch`
block ends with is the one thrown. -/
def generateRepoDocs (env : Env) (opts : GenerateRepoDocsOptions) :
    Except String GenerateRepoDocsReturn × List Event :=
  let includeRegexes := (normalizePatterns opts.includeOpt).map regexTest
  let excludeRegexes := (normalizePatterns opts.excludeOpt).map regexTest
  match getRepoInfo env.repoUrl env.urlPathname with
  | .error e => (.error e, [])
  | .ok repoInfo =>
    match env.cloneRes with
    | .error e => (.error e, [.cloneCall])
    | .ok tmpDir =>
      match pipelineBody env tmpDir repoInfo includeRegexes excludeRegexes with
      | .ok ret =>
        match env.cleanupRes 0 with
        | .ok _ => (.ok ret, [.cloneCall, .cleanupCall tmpDir])
        | .error e0 =>
          match env.cleanupRes 1 with
          | .ok _ =>
            (.error e0, [.cloneCall, .cleanupCall tmpDir, .cleanupCall tmpDir])
          | .error e1 =>
            (.error e1, [.cloneCall, .cleanupCall tmpDir, .cleanupCall tmpDir])
      | .error e =>
        match env.cleanupRes 0 with
        | .ok _ => (.error e, [.cloneCall, .cleanupCall tmpDir])
        | .error e0 => (.error e0, [.cloneCall, .cleanupCall tmpDir])

/-! Sample run fixtures used by witnesses: a small acquired tree with a
markdown file at the root, a markdown file and a symbolic link inside a
subdirectory, and a non-markdown file. -/

/-- Sample acquired tree used by witnesses. -/
def sampleTree : EntryList := EntryList.ofList
  [Entry.file "README.md",
   Entry.dir "docs" (EntryList.ofList [Entry.file "intro.md", Entry.other "link.md"]),
   Entry.file "a.txt"]

/-- Sample read oracle for `sampleTree` rooted at "/tmp/dumper-1". -/
def sampleRead : String → Except String String := fun p =>
  if p = "/tmp/dumper-1/README.md" then .ok "# Main\nBody"
  else if p = "/tmp/dumper-1/docs/intro.md" then .ok "# Intro Doc"
  else if p = "/tmp/dumper-1/a.txt" then .ok "plain"
  else .error "ENOENT"

/-- Sample environment in which every external effect succeeds. -/
def sampleEnv : Env :=
  { repoUrl := "https://github.com/acme/widgets.git"
    urlPathname := some "/acme/widgets.git"
    cloneRes := .ok "/tmp/dumper-1"
    shaRes := .ok "sha123\n"
    dateRes := .ok " Mon Jan 1 \n"
    treeRes := .ok sampleTree
    read := sampleRead
    cleanupRes := fun _ => .ok () }

/-! Helper lemmas about the traversal. -/

mutual
/-- The walk of one entry emits exactly the depth-first file paths below it
that pass the selection test, in order. -/
theorem walkEntry_eq_filter (inc exc : List (String → Bool)) (d : String)
    (e : Entry) :
    walkEntry inc exc d e = (dfsEntry d e).filter (selected inc exc) := by
  cases e with
  | file name =>
    by_cases h : selected inc exc (pathJoin d name) = true
    · simp [walkEntry, dfsEntry, List.filter, h]
    · simp only [Bool.not_eq_true] at h
      simp [walkEntry, dfsEntry, List.filter, h]
  | dir name children =>
    simpa [walkEntry, dfsEntry] using
      walkList_eq_filter inc exc (pathJoin d name) children
  | other name => simp [walkEntry, dfsEntry]
/-- The walk of a listing emits exactly the depth-first file paths below it
that pass the selection test, in order. -/
theorem walkList_eq_filter (inc exc : List (String → Bool)) (d : String)
    (l : EntryList) :
    walkList inc exc d l = (dfsList d l).filter (selected inc exc) := by
  cases l with
  | nil => simp [walkList, dfsList]
  | cons e rest =>
    simp [walkList, dfsList, List.filter_append,
      walkEntry_eq_filter inc exc d e, walkList_eq_filter inc exc d rest]
end

/-- The selector's output is the depth-first file listing filtered by the
selection test. -/
theorem findMarkdownFiles_eq_filter (d : String) (tree : EntryList)
    (inc exc : List (String → Bool)) :
    findMarkdownFiles d tree inc exc =
      (dfsList d tree).filter (selected inc exc) :=
  walkList_eq_filter inc exc d tree

/-- The boolean selection test, read as a proposition. -/
theorem selected_iff (inc exc : List (String → Bool)) (p : String) :
    selected inc exc p = true ↔
      ((inc ≠ [] ∧ ∃ rx ∈ inc, rx p = true) ∨
        (inc = [] ∧ jsEndsWith (jsToLower p) ".md" = true)) ∧
        ∀ ex ∈ exc, ex p = false := by
  simp only [selected, Bool.and_eq_true, Bool.or_eq_true, Bool.not_eq_true',
    List.any_eq_true, List.any_eq_false, decide_eq_true_eq, beq_iff_eq,
    gt_iff_lt, List.length_pos, List.length_eq_zero, ne_eq, Bool.not_eq_true]

/-- C1: a file encountered during traversal is selected iff (the include
list is non-empty and some include regex matches its full path, or the
include list is empty and the lowercased path ends in ".md") and no
exclude regex matches; since the output is exactly the encountered
regular-file paths filtered by that test, entries that are not regular
files (directories, symbolic links) are never selected, and a file matched
by both an include and an exclude is not selected. -/
theorem selector_selects_iff (inc exc : List (String → Bool)) (d : String)
    (tree : EntryList) (p : String) :
    p ∈ findMarkdownFiles d tree inc exc ↔
      p ∈ dfsList d tree ∧
        (((inc ≠ [] ∧ ∃ rx ∈ inc, rx p = true) ∨
          (inc = [] ∧ jsEndsWith (jsToLower p) ".md" = true)) ∧
          ∀ ex ∈ exc, ex p = false) := by
  rw [findMarkdownFiles_eq_filter, List.mem_filter, selected_iff]

/-! Helper lemmas about the aggregator. -/

/-- Unfolding of the aggregator's per-file fold when every read succeeds:
starting from any accumulator, the fold appends the blocks of the files in
input order. -/
theorem foldlM_blocks (d : String) (read : String → Except String String)
    (c : String → String) :
    ∀ (files : List String) (acc : String),
      (∀ p ∈ files, read p = Except.ok (c p)) →
      files.foldlM (aggStep d read) acc =
        Except.ok (acc ++ concatAll (files.map (fileBlock d c)))
  | [], acc, _ => by
    simp [concatAll, String.append_empty, pure, Except.pure]
  | p :: rest, acc, h => by
    have hp : read p = Except.ok (c p) := h p (by simp)
    have hstep : aggStep d read acc p =
        Except.ok (acc ++ "\n## " ++ relativePath d p ++ "\n\n" ++ c p ++ "\n") := by
      simp [aggStep, hp, bind, Except.bind, pure, Except.pure]
    have ih := foldlM_blocks d read c rest
      (acc ++ "\n## " ++ relativePath d p ++ "\n\n" ++ c p ++ "\n")
      (fun q hq => h q (by simp [hq]))
    rw [List.foldlM_cons, hstep]
    simp only [bind, Except.bind, ih, List.map_cons, concatAll, fileBlock]
    simp [String.append_assoc]

/-- The aggregator, on a list of readable files, returns the trimmed
concatenation of the top-level header and the per-file blocks in input
order. -/
theorem processFiles_concat (files : List String) (d : String)
    (info : RepoInfo) (read : String → Except String String)
    (c : String → String) (h : ∀ p ∈ files, read p = Except.ok (c p)) :
    processFiles files d info read =
      Except.ok (jsTrim (docHeader info ++ concatAll (files.map (fileBlock d c)))) := by
  unfold processFiles
  rw [foldlM_blocks d read c files _ h]
  simp [bind, Except.bind, pure, Except.pure, docHeader]

/-- The aggregator's fold depends on the read oracle only through the
files it is given. -/
theorem foldlM_read_congr (d : String)
    (read1 read2 : String → Except String String) :
    ∀ (files : List String) (acc : String),
      (∀ p ∈ files, read1 p = read2 p) →
      files.foldlM (aggStep d read1) acc = files.foldlM (aggStep d read2) acc
  | [], _, _ => rfl
  | p :: rest, acc, h => by
    have hp : read1 p = read2 p := h p (by simp)
    have hstep : aggStep d read1 acc p = aggStep d read2 acc p := by
      simp [aggStep, hp]
    rw [List.foldlM_cons, List.foldlM_cons, hstep]
    cases hv : aggStep d read2 acc p with
    | error e => simp [bind, Except.bind]
    | ok v =>
      simp only [bind, Except.bind]
      exact foldlM_read_congr d read1 read2 rest v (fun q hq => h q (by simp [hq]))

/-- C3: the Aggregator's output is the trimmed concatenation of a single
top-level header line embedding the repository owner and name followed by,
for each path in input order, a block made of a header line embedding the
path relative to the acquisition root followed by that file's raw
content. -/
theorem aggregator_output_spec (files : List String) (d : String)
    (info : RepoInfo) (read : String → Except String String)
    (c : String → String) (h : ∀ p ∈ files, read p = Except.ok (c p)) :
    processFiles files d info read =
      Except.ok (jsTrim (docHeader info ++ concatAll (files.map (fileBlock d c)))) :=
  processFiles_concat files d info read c h

/-- Witness for C3 at the sample fixtures. -/
theorem aggregator_output_spec_witness :
    processFiles ["/tmp/dumper-1/README.md", "/tmp/dumper-1/docs/intro.md"]
        "/tmp/dumper-1" ⟨"acme", "widgets"⟩ sampleRead =
      Except.ok (jsTrim (docHeader ⟨"acme", "widgets"⟩ ++
        concatAll (["/tmp/dumper-1/README.md", "/tmp/dumper-1/docs/intro.md"].map
          (fileBlock "/tmp/dumper-1"
            (fun p => if p = "/tmp/dumper-1/README.md" then "# Main\nBody" else "# Intro Doc"))))) :=
  aggregator_output_spec _ _ _ _ _ (by decide)

/-- C5: the selector's output is the depth-first traversal order (all of a
directory's descendants before its later siblings, entries in
directory-listing order) filtered by the selection test — never sorted or
reordered — and the aggregated document's blocks follow exactly that list
order. -/
theorem document_order_eq_traversal_order (d : String) (tree : EntryList)
    (inc exc : List (String → Bool)) (info : RepoInfo)
    (read : String → Except String String) (c : String → String)
    (h : ∀ p ∈ dfsList d tree, read p = Except.ok (c p)) :
    findMarkdownFiles d tree inc exc =
        (dfsList d tree).filter (selected inc exc) ∧
      processFiles (findMarkdownFiles d tree inc exc) d info read =
        Except.ok (jsTrim (docHeader info ++
          concatAll ((findMarkdownFiles d tree inc exc).map (fileBlock d c)))) := by
  refine ⟨findMarkdownFiles_eq_filter d tree inc exc, ?_⟩
  refine processFiles_concat _ d info read c (fun p hp => h p ?_)
  rw [findMarkdownFiles_eq_filter] at hp
  exact (List.mem_filter.mp hp).1

/-- Witness for C5 at the sample fixtures. -/
theorem document_order_eq_traversal_order_witness :
    findMarkdownFiles "/tmp/dumper-1" sampleTree [] [] =
        (dfsList "/tmp/dumper-1" sampleTree).filter (selected [] []) ∧
      processFiles (findMarkdownFiles "/tmp/dumper-1" sampleTree [] [])
          "/tmp/dumper-1" ⟨"acme", "widgets"⟩ sampleRead =
        Except.ok (jsTrim (docHeader ⟨"acme", "widgets"⟩ ++
          concatAll ((findMarkdownFiles "/tmp/dumper-1" sampleTree [] []).map
            (fileBlock "/tmp/dumper-1"
              (fun p => if p = "/tmp/dumper-1/README.md" then "# Main\nBody"
                else if p = "/tmp/dumper-1/docs/intro.md" then "# Intro Doc"
                else "plain"))))) :=
  document_order_eq_traversal_order "/tmp/dumper-1" sampleTree [] []
    ⟨"acme", "widgets"⟩ sampleRead _ (by decide)

/-- C9: the pipeline's pure tail is deterministic — selection followed by
aggregation over the same acquired tree (same root, same listing order)
with the same include and exclude regexes and the same file contents
produces byte-identical output. -/
theorem pure_tail_deterministic (d : String) (tree : EntryList)
    (inc exc : List (String → Bool)) (info : RepoInfo)
    (read1 read2 : String → Except String String)
    (h : ∀ p ∈ dfsList d tree, read1 p = read2 p) :
    processFiles (findMarkdownFiles d tree inc exc) d info read1 =
      processFiles (findMarkdownFiles d tree inc exc) d info read2 := by
  unfold processFiles
  rw [foldlM_read_congr d read1 read2 (findMarkdownFiles d tree inc exc) _
    (fun p hp => by
      rw [findMarkdownFiles_eq_filter] at hp
      exact h p (List.mem_filter.mp hp).1)]

/-- Witness for C9: two read oracles agreeing on the sample tree's files
yield the same output. -/
theorem pure_tail_deterministic_witness :
    processFiles (findMarkdownFiles "/tmp/dumper-1" sampleTree [] [])
        "/tmp/dumper-1" ⟨"acme", "widgets"⟩ sampleRead =
      processFiles (findMarkdownFiles "/tmp/dumper-1" sampleTree [] [])
        "/tmp/dumper-1" ⟨"acme", "widgets"⟩
        (fun p => if p = "/no/such" then Except.error "other world" else sampleRead p) :=
  pure_tail_deterministic "/tmp/dumper-1" sampleTree [] [] ⟨"acme", "widgets"⟩
    sampleRead _ (by decide)

/-! Lifecycle claims. -/

/-- C2: whenever acquisition succeeds — the URL parsed and `cloneRepo`
returned a temporary directory — `generateRepoDocs` invokes `cleanup` on
that directory before returning or throwing, on every path: the event
trace of the run (everything that happened before control returned)
contains a cleanup of the cloned directory, whether the
inspection/selection/aggregation body succeeded or failed. -/
theorem cleanup_on_every_path (env : Env) (opts : GenerateRepoDocsOptions)
    (info : RepoInfo) (d : String)
    (hp : getRepoInfo env.repoUrl env.urlPathname = .ok info)
    (hc : env.cloneRes = .ok d) :
    Event.cleanupCall d ∈ (generateRepoDocs env opts).snd := by
  unfold generateRepoDocs
  dsimp only
  rw [hp, hc]
  dsimp only
  cases pipelineBody env d info (List.map regexTest (normalizePatterns opts.includeOpt))
      (List.map regexTest (normalizePatterns opts.excludeOpt)) with
  | ok ret =>
    cases env.cleanupRes 0 with
    | ok u => simp
    | error e0 => cases env.cleanupRes 1 with
      | ok u => simp
      | error e1 => simp
  | error e =>
    cases env.cleanupRes 0 with
    | ok u => simp
    | error e0 => simp

/-- Witness for C2: in the sample environment with a failing metadata
stage, the clone is still cleaned up. -/
theorem cleanup_on_every_path_witness :
    Event.cleanupCall "/tmp/dumper-1" ∈
      (generateRepoDocs { sampleEnv with shaRes := .error "not a git repo" } {}).snd :=
  cleanup_on_every_path { sampleEnv with shaRes := .error "not a git repo" } {}
    ⟨"acme", "widgets"⟩ "/tmp/dumper-1" (by decide) (by decide)

/-- C8: when the Locator fails, `generateRepoDocs` propagates that error
with an empty event trace: no clone is invoked, hence no temporary
directory exists and no cleanup occurs. -/
theorem malformed_url_short_circuits (env : Env)
    (opts : GenerateRepoDocsOptions) (e : String)
    (hp : getRepoInfo env.repoUrl env.urlPathname = .error e) :
    generateRepoDocs env opts = (.error e, []) := by
  unfold generateRepoDocs
  dsimp only
  rw [hp]

/-- Witness for C8 at a URL whose path has a single segment. -/
theorem malformed_url_short_circuits_witness :
    generateRepoDocs { sampleEnv with
        repoUrl := "https://github.com/onlyowner",
        urlPathname := some "/onlyowner" } {} =
      (.error "Could not parse owner/repo from URL: https://github.com/onlyowner", []) :=
  malformed_url_short_circuits _ {} _ (by decide)

/-- C7: on a successful run, `generateRepoDocs` returns the aggregated
output together with metadata carrying the repository owner and name from
the Locator and the revision SHA and commit date obtained from the git
subprocess outputs, each whitespace-trimmed. -/
theorem success_returns_trimmed_metadata (env : Env)
    (opts : GenerateRepoDocsOptions) (info : RepoInfo) (d : String)
    (s t : String) (tree : EntryList) (out : String)
    (hp : getRepoInfo env.repoUrl env.urlPathname = .ok info)
    (hc : env.cloneRes = .ok d)
    (hs : env.shaRes = .ok s)
    (ht : env.dateRes = .ok t)
    (htree : env.treeRes = .ok tree)
    (hout : processFiles
        (findMarkdownFiles d tree
          ((normalizePatterns opts.includeOpt).map regexTest)
          ((normalizePatterns opts.excludeOpt).map regexTest))
        d info env.read = .ok out)
    (hcl : env.cleanupRes 0 = .ok ()) :
    (generateRepoDocs env opts).fst =
      .ok { output := out,
            metadata := { owner := info.owner, repo := info.repo,
                          sha := jsTrim s, date := jsTrim t } } := by
  unfold generateRepoDocs
  dsimp only
  rw [hp, hc]
  dsimp only
  have hbody : pipelineBody env d info
      (List.map regexTest (normalizePatterns opts.includeOpt))
      (List.map regexTest (normalizePatterns opts.excludeOpt)) =
      .ok { output := out,
            metadata := { owner := info.owner, repo := info.repo,
                          sha := jsTrim s, date := jsTrim t } } := by
    unfold pipelineBody getRepoMetadata
    rw [hs, ht, htree]
    simp only [bind, Except.bind, pure, Except.pure, hout]
  rw [hbody, hcl]

/-- Witness for C7 at the sample environment. -/
theorem success_returns_trimmed_metadata_witness :
    (generateRepoDocs sampleEnv {}).fst =
      .ok { output := "# Documentation for acme/widgets\n\n## README.md\n\n# Main\nBody\n\n## docs/intro.md\n\n# Intro Doc",
            metadata := { owner := "acme", repo := "widgets",
                          sha := jsTrim "sha123\n", date := jsTrim " Mon Jan 1 \n" } } :=
  success_returns_trimmed_metadata sampleEnv {} ⟨"acme", "widgets"⟩
    "/tmp/dumper-1" "sha123\n" " Mon Jan 1 \n" sampleTree
    "# Documentation for acme/widgets\n\n## README.md\n\n# Main\nBody\n\n## docs/intro.md\n\n# Intro Doc"
    (by decide) (by decide) (by decide) (by decide) (by rfl) (by decide)
    (by decide)

/-- Counterexample for C6: a run in which URL parsing, cloning, metadata,
selection and aggregation all succeed (with a working cleanup the same
environment returns the aggregated output), but in which `fs.rm` fails —
`generateRepoDocs` then throws the cleanup error instead of returning the
primary result, so a disposal failure does mask the primary result. -/
theorem cleanup_error_masks_result_cex :
    (generateRepoDocs sampleEnv {}).fst.isOk = true ∧
      (generateRepoDocs { sampleEnv with cleanupRes := fun _ => .error "EACCES" }
          {}).fst = .error "EACCES" := by
  constructor
  · decide
  · decide

/-- C6 (amended): when disposal fails, the disposal error propagates out of
`generateRepoDocs` instead of the primary result or error — if the
pipeline body succeeded, the first cleanup's error is thrown (or the
retry's error if the catch-block cleanup also fails), and if the body
failed, the catch-block cleanup's error replaces the body's error. -/
theorem cleanup_error_propagates (env : Env) (opts : GenerateRepoDocsOptions)
    (info : RepoInfo) (d : String) (e0 : String)
    (hp : getRepoInfo env.repoUrl env.urlPathname = .ok info)
    (hc : env.cloneRes = .ok d)
    (h0 : env.cleanupRes 0 = .error e0) :
    (generateRepoDocs env opts).fst =
      .error
        (match pipelineBody env d info
            (List.map regexTest (normalizePatterns opts.includeOpt))
            (List.map regexTest (normalizePatterns opts.excludeOpt)),
            env.cleanupRes 1 with
          | .ok _, .ok _ => e0
          | .ok _, .error e1 => e1
          | .error _, _ => e0) := by
  unfold generateRepoDocs
  dsimp only
  rw [hp, hc]
  dsimp only
  cases pipelineBody env d info (List.map regexTest (normalizePatterns opts.includeOpt))
      (List.map regexTest (normalizePatterns opts.excludeOpt)) with
  | ok ret =>
    rw [h0]
    cases env.cleanupRes 1 with
    | ok u => simp
    | error e1 => simp
  | error e =>
    rw [h0]

/-- Witness for C6 (amended): with every stage succeeding and cleanup
failing twice, the thrown error is the retry's cleanup error. -/
theorem cleanup_error_propagates_witness :
    (generateRepoDocs { sampleEnv with cleanupRes := fun _ => .error "EACCES" }
        {}).fst = .error
          (match pipelineBody
              { sampleEnv with cleanupRes := fun _ => .error "EACCES" }
              "/tmp/dumper-1" ⟨"acme", "widgets"⟩
              (List.map regexTest (normalizePatterns StrOrList.omitted))
              (List.map regexTest (normalizePatterns StrOrList.omitted)),
              ({ sampleEnv with cleanupRes := fun _ => .error "EACCES" } : Env).cleanupRes 1 with
            | .ok _, .ok _ => "EACCES"
            | .ok _, .error e1 => e1
            | .error _, _ => "EACCES") :=
  cleanup_error_propagates _ {} ⟨"acme", "widgets"⟩ "/tmp/dumper-1" "EACCES"
    (by decide) (by decide) (by decide)

/-! Option-normalization claims. -/

/-- Counterexample for C10: the empty string is a string and a valid
pattern (the empty regular expression matches every path), yet
`include: ""` normalizes to no include rules (falling back to the ".md"
default) while `include: [""]` keeps the always-matching rule, so
selection differs between a single string and the one-element list
holding it. -/
theorem single_string_option_cex :
    findMarkdownFiles "/tmp/dumper-1" (EntryList.ofList [Entry.file "a.txt"])
        ((normalizePatterns (.str "")).map regexTest) [] ≠
      findMarkdownFiles "/tmp/dumper-1" (EntryList.ofList [Entry.file "a.txt"])
        ((normalizePatterns (.arr [""])).map regexTest) [] := by
  decide

/-- C10 (amended): a single non-empty string passed as `include` or
`exclude` is treated exactly as the one-element list of patterns, and an
omitted option exactly as the empty list, so selection behaves identically
under these normalizations; a single empty string, by JavaScript
falsiness, is instead treated as the empty list. -/
theorem single_string_option_normalization (s : String) (hs : s ≠ "")
    (d : String) (tree : EntryList) (inc exc : List (String → Bool)) :
    normalizePatterns (.str s) = normalizePatterns (.arr [s]) ∧
      normalizePatterns .omitted = normalizePatterns (.arr []) ∧
      normalizePatterns (.str "") = normalizePatterns (.arr []) ∧
      findMarkdownFiles d tree ((normalizePatterns (.str s)).map regexTest) exc =
        findMarkdownFiles d tree ((normalizePatterns (.arr [s])).map regexTest) exc ∧
      findMarkdownFiles d tree inc ((normalizePatterns (.str s)).map regexTest) =
        findMarkdownFiles d tree inc ((normalizePatterns (.arr [s])).map regexTest) ∧
      findMarkdownFiles d tree ((normalizePatterns .omitted).map regexTest) exc =
        findMarkdownFiles d tree ((normalizePatterns (.arr [])).map regexTest) exc := by
  have hn : normalizePatterns (.str s) = [s] := by simp [normalizePatterns, hs]
  refine ⟨by simp [normalizePatterns, hs], by simp [normalizePatterns],
    by simp [normalizePatterns], ?_, ?_, rfl⟩
  · rw [hn]
    simp [normalizePatterns]
  · rw [hn]
    simp [normalizePatterns]

/-- Witness for C10 (amended) at the pattern "docs". -/
theorem single_string_option_normalization_witness :
    normalizePatterns (.str "docs") = normalizePatterns (.arr ["docs"]) ∧
      normalizePatterns .omitted = normalizePatterns (.arr []) ∧
      normalizePatterns (.str "") = normalizePatterns (.arr []) ∧
      findMarkdownFiles "/tmp/dumper-1" sampleTree
          ((normalizePatterns (.str "docs")).map regexTest) [] =
        findMarkdownFiles "/tmp/dumper-1" sampleTree
          ((normalizePatterns (.arr ["docs"])).map regexTest) [] ∧
      findMarkdownFiles "/tmp/dumper-1" sampleTree []
          ((normalizePatterns (.str "docs")).map regexTest) =
        findMarkdownFiles "/tmp/dumper-1" sampleTree []
          ((normalizePatterns (.arr ["docs"])).map regexTest) ∧
      findMarkdownFiles "/tmp/dumper-1" sampleTree
          ((normalizePatterns .omitted).map regexTest) [] =
        findMarkdownFiles "/tmp/dumper-1" sampleTree
          ((normalizePatterns (.arr [])).map regexTest) [] :=
  single_string_option_normalization "docs" (by decide) "/tmp/dumper-1"
    sampleTree [] []

/-! Helper lemmas about the Locator's string processing. -/

/-- Characters of a non-empty string form a non-empty list. -/
theorem data_ne_nil (s : String) (h : s ≠ "") : s.data ≠ [] := by
  intro hd
  apply h
  cases s with
  | mk l => cases hd; rfl

/-- dropWhile-slash is the identity on slash-free lists. -/
theorem dropWhile_slash_self : ∀ (l : List Char), '/' ∉ l →
    l.dropWhile (· == '/') = l
  | [], _ => rfl
  | c :: r, h => by
    have hc : (c == '/') = false := by
      simp only [beq_eq_false_iff_ne, ne_eq]
      intro he
      exact h (by simp [he])
    have ih := dropWhile_slash_self r (fun hm => h (List.mem_cons_of_mem c hm))
    simp [List.dropWhile_cons, hc, ih]

/-- `stripLeadingSlashes` removes the single leading slash when the rest of
the pathname starts with a slash-free non-empty segment. -/
theorem stripLeadingSlashes_cons_append (o r : List Char) (ho : '/' ∉ o)
    (hne : o ≠ []) : stripLeadingSlashes ('/' :: (o ++ r)) = o ++ r := by
  cases o with
  | nil => exact absurd rfl hne
  | cons c o' =>
    have hc : (c == '/') = false := by
      simp only [beq_eq_false_iff_ne, ne_eq]
      intro he
      exact ho (by simp [he])
    simp [stripLeadingSlashes, List.dropWhile_cons, hc]

/-- `stripLeadingSlashes` on a slash followed by a slash-free remainder. -/
theorem stripLeadingSlashes_slash (l : List Char) (h : '/' ∉ l) :
    stripLeadingSlashes ('/' :: l) = l := by
  simp only [stripLeadingSlashes, List.dropWhile_cons]
  simp only [show (('/' : Char) == '/') = true from rfl, if_true]
  exact dropWhile_slash_self l h

/-- Boolean counterpart of the failure of a prefix relation. -/
theorem isPrefixOfFalse {a b : List Char} (h : ¬ a <+: b) :
    a.isPrefixOf b = false := by
  rw [Bool.eq_false_iff]
  intro hb
  exact h (List.isPrefixOf_iff_prefix.mp hb)

/-- A pattern starting with a slash is never a prefix of a list that starts
with a slash-free non-empty list. -/
theorem not_slash_pat_starts (pat l m : List Char) (hl : l ≠ [])
    (hs : '/' ∉ l) : ¬ ('/' :: pat) <+: (l ++ m) := by
  intro hp
  obtain ⟨t, ht⟩ := hp
  cases l with
  | nil => exact hl rfl
  | cons c r =>
    rw [List.cons_append, List.cons_append] at ht
    injection ht with h1 h2
    subst h1
    exact hs (List.mem_cons_self _ _)

/-- The reversed ".git" pattern is not a prefix of `n.reverse ++ '/' :: m`
when `n` is slash-free and does not end in ".git". -/
theorem not_tig_starts (n m : List Char) (_hn : '/' ∉ n)
    (hg : ¬ ['.', 'g', 'i', 't'] <:+ n) :
    ¬ ['t', 'i', 'g', '.'] <+: (n.reverse ++ '/' :: m) := by
  intro hp
  obtain ⟨t, ht⟩ := hp
  rcases hnr : n.reverse with _ | ⟨a, _ | ⟨b, _ | ⟨c, _ | ⟨d, r⟩⟩⟩⟩ <;>
    rw [hnr] at ht <;> simp only [List.cons_append, List.nil_append] at ht
  · injection ht with h1 h2
    exact absurd h1 (by decide)
  · injection ht with h1 ht
    injection ht with h2 ht
    exact absurd h2 (by decide)
  · injection ht with h1 ht
    injection ht with h2 ht
    injection ht with h3 ht
    exact absurd h3 (by decide)
  · injection ht with h1 ht
    injection ht with h2 ht
    injection ht with h3 ht
    injection ht with h4 ht
    exact absurd h4 (by decide)
  · injection ht with h1 ht
    injection ht with h2 ht
    injection ht with h3 ht
    injection ht with h4 ht
    subst h1; subst h2; subst h3; subst h4
    apply hg
    refine ⟨r.reverse, ?_⟩
    have hne : n = (('t' : Char) :: 'i' :: 'g' :: '.' :: r).reverse := by
      rw [← hnr, List.reverse_reverse]
    rw [hne]
    simp

/-- `stripTailRev` can only shorten its input, so it preserves
slash-freeness. -/
theorem no_slash_stripTailRev (l : List Char) (h : '/' ∉ l) :
    '/' ∉ stripTailRev l := by
  unfold stripTailRev
  repeat' split
  all_goals first
    | exact fun hm => h (List.drop_subset _ _ hm)
    | exact h

/-- `stripGitSlashSuffix` preserves slash-freeness. -/
theorem no_slash_stripGitSuffix (l : List Char) (h : '/' ∉ l) :
    '/' ∉ stripGitSlashSuffix l := by
  unfold stripGitSlashSuffix
  intro hm
  rw [List.mem_reverse] at hm
  exact no_slash_stripTailRev l.reverse
    (fun hr => h (List.mem_reverse.mp hr)) hm

/-- `stripTailRev` of a slash followed by a slash-free list yields a
slash-free list (the leading slash is always consumed, alone or as part of
a reversed ".git/"). -/
theorem no_slash_stripTailRev_slash_cons (mr : List Char) (h : '/' ∉ mr) :
    '/' ∉ stripTailRev ('/' :: mr) := by
  unfold stripTailRev
  split
  · intro hm
    rw [List.drop_succ_cons] at hm
    exact h (List.drop_subset _ _ hm)
  · split
    · intro hm
      rw [List.drop_succ_cons] at hm
      exact h (List.drop_subset _ _ hm)
    · split
      · intro hm
        rw [List.drop_succ_cons] at hm
        exact h (List.drop_subset _ _ hm)
      · next h3 =>
        exact absurd (by simp [List.isPrefixOf]) h3

/-- `splitOnSlash` of a slash-free list is that single segment. -/
theorem splitOnSlash_no_slash : ∀ (l : List Char), '/' ∉ l →
    splitOnSlash l = [l]
  | [], _ => rfl
  | c :: r, h => by
    have hc : ¬ c = '/' := fun he => h (by simp [he])
    have ih := splitOnSlash_no_slash r (fun hm => h (List.mem_cons_of_mem c hm))
    simp [splitOnSlash, hc, ih]

/-- `splitOnSlash` of two slash-free segments around one slash. -/
theorem splitOnSlash_append : ∀ (o : List Char), '/' ∉ o →
    ∀ (n : List Char), '/' ∉ n → splitOnSlash (o ++ '/' :: n) = [o, n]
  | [], _, n, hn => by
    simp [splitOnSlash, splitOnSlash_no_slash n hn]
  | c :: o', ho, n, hn => by
    have hc : ¬ c = '/' := fun he => ho (by simp [he])
    have ih := splitOnSlash_append o'
      (fun hm => ho (List.mem_cons_of_mem c hm)) n hn
    simp [splitOnSlash, hc, ih]

/-- Non-empty lists are not `isEmpty`. -/
theorem isEmpty_eq_false_of_ne_nil (l : List Char) (h : l ≠ []) :
    l.isEmpty = false := by
  cases l with
  | nil => exact absurd rfl h
  | cons c r => rfl

/-- `parseOwnerRepo` succeeds on two non-empty slash-free segments. -/
theorem parseOwnerRepo_pair (o n : List Char) (hoe : o ≠ []) (hne : n ≠ [])
    (ho : '/' ∉ o) (hn : '/' ∉ n) :
    parseOwnerRepo (o ++ '/' :: n) = some (o, n) := by
  unfold parseOwnerRepo
  rw [splitOnSlash_append o ho n hn]
  simp [isEmpty_eq_false_of_ne_nil o hoe, isEmpty_eq_false_of_ne_nil n hne]

/-- `parseOwnerRepo` fails on a single slash-free segment. -/
theorem parseOwnerRepo_single (l : List Char) (h : '/' ∉ l) :
    parseOwnerRepo l = none := by
  unfold parseOwnerRepo
  rw [splitOnSlash_no_slash l h]

/-- `stripGitSlashSuffix` removes exactly an optional ".git" and optional
trailing slash after the repository-name segment, and nothing else, when
the name is slash-free, non-empty, and does not itself end in ".git". -/
theorem stripGitSlashSuffix_strips (o n : List Char) (hn : '/' ∉ n)
    (hne : n ≠ []) (hg : ¬ ['.', 'g', 'i', 't'] <:+ n) (tail : List Char)
    (htail : tail = [] ∨ tail = ['/'] ∨ tail = ['.', 'g', 'i', 't'] ∨
      tail = ['.', 'g', 'i', 't', '/']) :
    stripGitSlashSuffix (o ++ '/' :: (n ++ tail)) = o ++ '/' :: n := by
  have hrevnil : n.reverse ≠ [] := by simpa using hne
  have hrevslash : '/' ∉ n.reverse := by
    intro hm
    exact hn (List.mem_reverse.mp hm)
  have h2 : List.isPrefixOf ['t', 'i', 'g', '.']
      (n.reverse ++ '/' :: o.reverse) = false :=
    isPrefixOfFalse (not_tig_starts n o.reverse hn hg)
  unfold stripGitSlashSuffix
  rcases htail with h | h | h | h <;> subst h
  · have h1 : List.isPrefixOf ['/', 't', 'i', 'g', '.']
        (n.reverse ++ '/' :: o.reverse) = false :=
      isPrefixOfFalse
        (not_slash_pat_starts ['t', 'i', 'g', '.'] n.reverse ('/' :: o.reverse)
          hrevnil hrevslash)
    have h3 : List.isPrefixOf ['/'] (n.reverse ++ '/' :: o.reverse) = false :=
      isPrefixOfFalse
        (not_slash_pat_starts [] n.reverse ('/' :: o.reverse) hrevnil hrevslash)
    have hrev : (o ++ '/' :: (n ++ ([] : List Char))).reverse =
        n.reverse ++ '/' :: o.reverse := by
      simp
    rw [hrev]
    simp [stripTailRev, h1, h2, h3]
  · have hrev : (o ++ '/' :: (n ++ ['/'])).reverse =
        '/' :: (n.reverse ++ '/' :: o.reverse) := by
      simp
    rw [hrev]
    have h1 : List.isPrefixOf ['/', 't', 'i', 'g', '.']
        ('/' :: (n.reverse ++ '/' :: o.reverse)) = false := by
      simp [List.isPrefixOf, h2]
    have h3 : List.isPrefixOf ['t', 'i', 'g', '.']
        ('/' :: (n.reverse ++ '/' :: o.reverse)) = false := by
      simp [List.isPrefixOf]
    simp [stripTailRev, h1, h3, List.isPrefixOf, not_tig_starts n o.reverse hn hg]
  · have hrev : (o ++ '/' :: (n ++ ['.', 'g', 'i', 't'])).reverse =
        't' :: 'i' :: 'g' :: '.' :: (n.reverse ++ '/' :: o.reverse) := by
      simp
    rw [hrev]
    have h1 : List.isPrefixOf ['/', 't', 'i', 'g', '.']
        ('t' :: 'i' :: 'g' :: '.' :: (n.reverse ++ '/' :: o.reverse)) = false := by
      simp [List.isPrefixOf]
    simp [stripTailRev, h1, List.isPrefixOf]
  · have hrev : (o ++ '/' :: (n ++ ['.', 'g', 'i', 't', '/'])).reverse =
        '/' :: 't' :: 'i' :: 'g' :: '.' :: (n.reverse ++ '/' :: o.reverse) := by
      simp
    rw [hrev]
    simp [stripTailRev, List.isPrefixOf]

/-- Characters of the slash string literal. -/
theorem data_slash : ("/" : String).data = ['/'] := rfl

/-- Characters of the ".git" string literal. -/
theorem data_git : (".git" : String).data = ['.', 'g', 'i', 't'] := rfl

/-- Characters of the empty string literal. -/
theorem data_empty : ("" : String).data = [] := rfl

/-- C4: for every URL of the form `scheme://host/owner/name[.git][/]` —
whose WHATWG pathname is `/owner/name[.git][/]`, with owner and name
non-empty slash-free segments and the name not itself ending in ".git" —
the Locator returns exactly the owner/name pair; and it fails with the
malformed-URL error when the name segment is missing (a single-segment
path, covering a missing owner as the empty-path case), when the name
segment is empty (trailing-slash-only second segment), or when the input
is not a syntactically valid URL (the URL parser throws). -/
theorem locator_parses_valid_urls (url owner name seg : String)
    (gitStr slashStr : String)
    (hgs : gitStr = "" ∨ gitStr = ".git")
    (hss : slashStr = "" ∨ slashStr = "/")
    (ho : owner ≠ "") (hn : name ≠ "")
    (ho' : '/' ∉ owner.data) (hn' : '/' ∉ name.data)
    (hg : ¬ ['.', 'g', 'i', 't'] <:+ name.data)
    (hseg : '/' ∉ seg.data) :
    getRepoInfo url (some ("/" ++ owner ++ "/" ++ name ++ gitStr ++ slashStr)) =
      .ok ⟨owner, name⟩ ∧
    getRepoInfo url (some ("/" ++ seg)) =
      .error ("Could not parse owner/repo from URL: " ++ url) ∧
    getRepoInfo url (some ("/" ++ seg ++ "/")) =
      .error ("Could not parse owner/repo from URL: " ++ url) ∧
    getRepoInfo url none = .error ("Invalid URL: " ++ url) := by
  have hod := data_ne_nil owner ho
  have hnd := data_ne_nil name hn
  refine ⟨?_, ?_, ?_, rfl⟩
  · rcases hgs with rfl | rfl <;> rcases hss with rfl | rfl
    · have hd : ("/" ++ owner ++ "/" ++ name ++ "" ++ "").data =
          '/' :: (owner.data ++ '/' :: name.data) := by
        simp [String.data_append, data_slash, data_empty]
      simp only [getRepoInfo]
      rw [hd, stripLeadingSlashes_cons_append owner.data ('/' :: name.data) ho' hod]
      have hstrip := stripGitSlashSuffix_strips owner.data name.data hn' hnd hg
        [] (Or.inl rfl)
      rw [List.append_nil] at hstrip
      rw [hstrip, parseOwnerRepo_pair owner.data name.data hod hnd ho' hn']
    · have hd : ("/" ++ owner ++ "/" ++ name ++ "" ++ "/").data =
          '/' :: (owner.data ++ '/' :: (name.data ++ ['/'])) := by
        simp [String.data_append, data_slash, data_empty]
      simp only [getRepoInfo]
      rw [hd, stripLeadingSlashes_cons_append owner.data
        ('/' :: (name.data ++ ['/'])) ho' hod]
      rw [stripGitSlashSuffix_strips owner.data name.data hn' hnd hg
        ['/'] (Or.inr (Or.inl rfl))]
      rw [parseOwnerRepo_pair owner.data name.data hod hnd ho' hn']
    · have hd : ("/" ++ owner ++ "/" ++ name ++ ".git" ++ "").data =
          '/' :: (owner.data ++ '/' :: (name.data ++ ['.', 'g', 'i', 't'])) := by
        simp [String.data_append, data_slash, data_git, data_empty]
      simp only [getRepoInfo]
      rw [hd, stripLeadingSlashes_cons_append owner.data
        ('/' :: (name.data ++ ['.', 'g', 'i', 't'])) ho' hod]
      rw [stripGitSlashSuffix_strips owner.data name.data hn' hnd hg
        ['.', 'g', 'i', 't'] (Or.inr (Or.inr (Or.inl rfl)))]
      rw [parseOwnerRepo_pair owner.data name.data hod hnd ho' hn']
    · have hd : ("/" ++ owner ++ "/" ++ name ++ ".git" ++ "/").data =
          '/' :: (owner.data ++ '/' :: (name.data ++ ['.', 'g', 'i', 't', '/'])) := by
        simp [String.data_append, data_slash, data_git, data_empty]
      simp only [getRepoInfo]
      rw [hd, stripLeadingSlashes_cons_append owner.data
        ('/' :: (name.data ++ ['.', 'g', 'i', 't', '/'])) ho' hod]
      rw [stripGitSlashSuffix_strips owner.data name.data hn' hnd hg
        ['.', 'g', 'i', 't', '/'] (Or.inr (Or.inr (Or.inr rfl)))]
      rw [parseOwnerRepo_pair owner.data name.data hod hnd ho' hn']
  · have hd : ("/" ++ seg).data = '/' :: seg.data := by
      simp [String.data_append, data_slash]
    simp only [getRepoInfo]
    rw [hd, stripLeadingSlashes_slash seg.data hseg]
    rw [parseOwnerRepo_single _ (no_slash_stripGitSuffix seg.data hseg)]
  · have hd : ("/" ++ seg ++ "/").data = '/' :: (seg.data ++ ['/']) := by
      simp [String.data_append, data_slash]
    simp only [getRepoInfo]
    rw [hd]
    rcases hsd : seg.data with _ | ⟨c, r⟩
    · have hval : parseOwnerRepo (stripGitSlashSuffix
          (stripLeadingSlashes ('/' :: (([] : List Char) ++ ['/'])))) = none := by
        decide
      rw [hval]
    · rw [← hsd]
      have hsegne : seg.data ≠ [] := by
        rw [hsd]
        simp
      rw [stripLeadingSlashes_cons_append seg.data ['/'] hseg hsegne]
      have hns : '/' ∉ stripGitSlashSuffix (seg.data ++ ['/']) := by
        unfold stripGitSlashSuffix
        have hrev : (seg.data ++ ['/']).reverse = '/' :: seg.data.reverse := by
          simp
        rw [hrev]
        intro hm
        rw [List.mem_reverse] at hm
        exact no_slash_stripTailRev_slash_cons seg.data.reverse
          (fun hr => hseg (List.mem_reverse.mp hr)) hm
      rw [parseOwnerRepo_single _ hns]

/-- Witness for C4 at `https://github.com/acme/widgets.git` (pathname
"/acme/widgets.git") and the single-segment pathname "/onlyowner". -/
theorem locator_parses_valid_urls_witness :
    getRepoInfo "https://github.com/acme/widgets.git"
        (some ("/" ++ "acme" ++ "/" ++ "widgets" ++ ".git" ++ "")) =
      .ok ⟨"acme", "widgets"⟩ ∧
    getRepoInfo "https://github.com/acme/widgets.git" (some ("/" ++ "onlyowner")) =
      .error ("Could not parse owner/repo from URL: https://github.com/acme/widgets.git") ∧
    getRepoInfo "https://github.com/acme/widgets.git"
        (some ("/" ++ "onlyowner" ++ "/")) =
      .error ("Could not parse owner/repo from URL: https://github.com/acme/widgets.git") ∧
    getRepoInfo "https://github.com/acme/widgets.git" none =
      .error ("Invalid URL: https://github.com/acme/widgets.git") :=
  locator_parses_valid_urls "https://github.com/acme/widgets.git"
    "acme" "widgets" "onlyowner" ".git" "" (Or.inr rfl) (Or.inl rfl)
    (by decide) (by decide) (by decide) (by decide) (by decide) (by decide)
